import Mathlib

/-!
Verification development for the BreezyArduCAM driver
(`src/BreezyArduCAM.h`): the capture state machine, the FIFO frame
extractors (raw QVGA and marker-delimited JPEG), the FIFO length
register composition, and the serial start/stop request handlers.

The repository ships only the header `src/BreezyArduCAM.h`; the bodies of
the private methods (`capture`, `grabJpegFrame`, `grabQvgaFrame`,
`read_fifo_length`, ...) live in `BreezyArduCAM.cpp`, which is not part of
the source tree here.  Those operations are therefore modelled from the
design specification.  The two `Serial_ArduCAM_Mini_2MP` request handlers
are defined inline in the header and are embedded from that source text.
-/

/-- First byte of the JPEG end-of-image marker (0xFF). -/
def jpegMarkerHi : Nat := 0xFF

/-- Second byte of the JPEG end-of-image marker (0xD9). -/
def jpegMarkerLo : Nat := 0xD9

/-- Hardware maximum FIFO length in bytes (0x5FFFF, about 393,216). -/
def maxFifoSize : Nat := 0x5FFFF

/-- Modelled from the spec: the degenerate-length test of the extraction
step (the body of the extraction code is in `BreezyArduCAM.cpp`, not under
`src/`).  A frame length is degenerate when it is zero (non-positive, on
naturals) or exceeds the hardware maximum. -/
def degenerateLength (len : Nat) : Bool :=
  decide (len = 0 ∨ maxFifoSize < len)

/-- Modelled from the spec: the FIFO is read one byte at a time in burst
mode; we model its contents as a stream of bytes indexed by read position. -/
def Fifo : Type := Nat → Nat

/-- Modelled from the spec: the byte-draining loop of
`ArduCAM_Mini_2MP::grabJpegFrame` (declared at `src/BreezyArduCAM.h:141`;
its body is in `BreezyArduCAM.cpp`, not under `src/`).  Reads up to `rem`
further bytes starting at FIFO position `pos`, emitting every byte as
read; `prev` is the older half of the 2-byte sliding window (the
previously read byte, or the sentinel before any byte has been read).
The loop stops early right after emitting a byte that completes the
end-of-image marker pair (0xFF, 0xD9) in the window. -/
def jpegDrain (fifo : Fifo) : Nat → Nat → Nat → List Nat
  | _, 0, _ => []
  | pos, rem + 1, prev =>
    let b := fifo pos
    if prev = jpegMarkerHi ∧ b = jpegMarkerLo then [b]
    else b :: jpegDrain fifo (pos + 1) rem b

/-- Modelled from the spec: the sentinel value seeding the sliding window
before the first real byte is available; it must not match the first
marker byte, so that no marker pair can be detected before at least two
real bytes have been read. -/
def jpegSentinel : Nat := 0

/-- Modelled from the spec: `ArduCAM_Mini_2MP::grabJpegFrame` (declared at
`src/BreezyArduCAM.h:141`; body in `BreezyArduCAM.cpp`, not under `src/`).
Given the length reported by the hardware length register, short-circuits
on a degenerate length without reading the FIFO, and otherwise drains
bytes one at a time — at most `length` of them, stopping early on the
(0xFF, 0xD9) end-of-image marker — returning the sequence of bytes
emitted to `sendByte`, in order. -/
def grabJpegFrame (fifo : Fifo) (length : Nat) : List Nat :=
  if degenerateLength length then [] else jpegDrain fifo 0 length jpegSentinel

/-- Modelled from the spec: `ArduCAM_Mini_2MP::grabQvgaFrame` (declared at
`src/BreezyArduCAM.h:142`; body in `BreezyArduCAM.cpp`, not under `src/`).
Short-circuits on a degenerate length without reading the FIFO; otherwise
reads exactly `length` bytes in burst mode and forwards each byte to the
sink unmodified. -/
def grabQvgaFrame (fifo : Fifo) (length : Nat) : List Nat :=
  if degenerateLength length then [] else (List.range length).map fifo

/-- Modelled from the spec: the raw-mode pixel count for a sensor of
dimensions `w × h` at a power-of-two scale-down exponent (the exact
per-level preset table is external sensor data; the spec fixes the
scale-down factor to a power-of-two downsample of each dimension). -/
def sensorPixelCount (w h scaledown : Nat) : Nat :=
  (w / 2 ^ scaledown) * (h / 2 ^ scaledown)

/-- Modelled from the spec: the raw-mode byte count — pixel count times
1 byte per pixel when grayscale, 2 bytes per pixel otherwise. -/
def qvgaLength (pixelCount : Nat) (grayscale : Bool) : Nat :=
  pixelCount * (if grayscale then 1 else 2)

/-- Modelled from the spec: `ArduCAM_Mini_2MP::read_fifo_length` (declared
at `src/BreezyArduCAM.h:152`; body in `BreezyArduCAM.cpp`, not under
`src/`).  Composes three consecutive 8-bit register reads (low, mid, high
byte) into a 24-bit unsigned length; each register read yields an 8-bit
value. -/
def read_fifo_length (low mid high : Nat) : Nat :=
  low % 256 + 256 * (mid % 256) + 65536 * (high % 256)

/-- Phase of the capture state machine: `Idle` waits for a start request;
`Capturing` polls the completion flag (the transient `Starting` arm
sequence happens within the tick that leaves `Idle`). -/
inductive Phase
  | Idle
  | Capturing
  deriving DecidableEq, Repr

/-- Modelled from the spec: the driver state owned by the capture state
machine — capture mode (`usingJpeg`), raw-mode scale-down exponent and
grayscale flag, and the machine phase (the header's `capturing` /
`starting` flags). -/
structure DriverState where
  usingJpeg : Bool
  scaledown : Nat
  grayscale : Bool
  phase : Phase
  deriving DecidableEq, Repr

/-- The external inputs observed during one driver tick: the controller's
start and stop signals, the FIFO completion flag, the value of the
hardware length register, and the FIFO contents. -/
structure TickInput where
  startReq : Bool
  stopReq : Bool
  fifoDone : Bool
  fifoLen : Nat
  fifo : Fifo

/-- The observable effects of one driver tick: the bytes emitted to
`sendByte` in order, whether `start_capture()` was issued, and whether a
bus burst read of the FIFO was initiated. -/
structure TickOutput where
  emitted : List Nat
  startedCapture : Bool
  burstRead : Bool
  deriving DecidableEq, Repr

/-- Modelled from the spec: the frame length used by the extraction step —
read from the hardware length register in compressed mode, computed from
the configured resolution, scale-down and grayscale flag in raw mode
(320×240 sensor base resolution for QVGA). -/
def frameLength (s : DriverState) (i : TickInput) : Nat :=
  if s.usingJpeg then i.fifoLen
  else qvgaLength (sensorPixelCount 320 240 s.scaledown) s.grayscale

/-- Modelled from the spec: one tick of `ArduCAM_Mini_2MP::capture`
(declared at `src/BreezyArduCAM.h:110-114`; body in `BreezyArduCAM.cpp`,
not under `src/`).  In `Idle`, a start request arms the FIFO (issuing
`start_capture()`) and moves to `Capturing`.  In `Capturing`, the
completion flag is polled first; while not complete, a stop request aborts
the session back to `Idle` with nothing emitted; once complete, the frame
length is read and the extractor for the configured mode drains the FIFO
to the sink within the same tick, after which the machine returns to
`Idle`. -/
def tick (s : DriverState) (i : TickInput) : DriverState × TickOutput :=
  match s.phase with
  | Phase.Idle =>
    if i.startReq then
      ({ s with phase := Phase.Capturing }, ⟨[], true, false⟩)
    else
      (s, ⟨[], false, false⟩)
  | Phase.Capturing =>
    if i.fifoDone then
      ({ s with phase := Phase.Idle },
       ⟨if s.usingJpeg then grabJpegFrame i.fifo (frameLength s i)
         else grabQvgaFrame i.fifo (frameLength s i),
        false,
        !degenerateLength (frameLength s i)⟩)
    else if i.stopReq then
      ({ s with phase := Phase.Idle }, ⟨[], false, false⟩)
    else
      (s, ⟨[], false, false⟩)

/-- Modelled from the spec: the `beginQvga` entry point
(`src/BreezyArduCAM.h:63`) records raw-mode extraction with the given
scale-down exponent and grayscale flag; the machine starts in `Idle`. -/
def beginQvga (scaledown : Nat) (grayscale : Bool) : DriverState :=
  ⟨false, scaledown, grayscale, Phase.Idle⟩

/-- The pending bytes of the serial port, oldest first; `Serial.available()`
is their count. -/
def serialAvailable (buf : List Nat) : Nat := buf.length

/-- `Serial.read()`: the value returned — the oldest pending byte, or -1
when none is pending. -/
def serialReadVal : List Nat → Int
  | [] => -1
  | b :: _ => (b : Int)

/-- `Serial.read()`: the pending bytes after the call — reading consumes
the oldest pending byte. -/
def serialReadRest : List Nat → List Nat
  | [] => []
  | _ :: rest => rest

/-- `Serial_ArduCAM_Mini_2MP::gotStartRequest` (`src/BreezyArduCAM.h:199-202`):
`return (Serial.available() && Serial.read());`.  C++ `&&` short-circuits,
so the port is read only when a byte is available, and the int result of
`Serial.read()` is truthy exactly when nonzero.  Returns the boolean
result together with the pending bytes after the call. -/
def gotStartRequest (buf : List Nat) : Bool × List Nat :=
  if serialAvailable buf ≠ 0 then
    (serialReadVal buf != 0, serialReadRest buf)
  else
    (false, buf)

/-- `Serial_ArduCAM_Mini_2MP::gotStopRequest` (`src/BreezyArduCAM.h:207-210`):
`return (Serial.available() && !Serial.read());`.  C++ `!` on the int
result of `Serial.read()` is true exactly when the value read is zero. -/
def gotStopRequest (buf : List Nat) : Bool × List Nat :=
  if serialAvailable buf ≠ 0 then
    (serialReadVal buf == 0, serialReadRest buf)
  else
    (false, buf)

/-- Example FIFO stream: a payload ending in the end-of-image marker
followed by two trailing padding bytes. -/
def exFifo : Fifo := fun i => [10, 0xFF, 0xD9, 0xAA, 0xBB].getD i 0

/-- Example FIFO stream of all-zero bytes. -/
def zeroFifo : Fifo := fun _ => 0

/-- Example tick input: no signals, completion flag clear. -/
def iNone : TickInput := ⟨false, false, false, 0, zeroFifo⟩

/-- Example tick input: stop requested, completion flag clear. -/
def iStop : TickInput := ⟨false, true, false, 0, zeroFifo⟩

/-- Example tick input: completion flag set, reported length zero. -/
def iDoneZero : TickInput := ⟨false, false, true, 0, zeroFifo⟩

/-- Example tick input: completion flag set, all-zero FIFO. -/
def iDone : TickInput := ⟨false, false, true, 100, zeroFifo⟩

/-- Example driver state: compressed mode, mid-capture. -/
def sCapJpeg : DriverState := ⟨true, 0, false, Phase.Capturing⟩

/-- Example driver state: compressed mode, idle. -/
def sIdleJpeg : DriverState := ⟨true, 0, false, Phase.Idle⟩

/-- Unfolding the JPEG drain loop at zero remaining bytes. -/
theorem jpegDrain_zero (fifo : Fifo) (pos prev : Nat) :
    jpegDrain fifo pos 0 prev = [] := rfl

/-- Unfolding one step of the JPEG drain loop. -/
theorem jpegDrain_succ (fifo : Fifo) (pos rem prev : Nat) :
    jpegDrain fifo pos (rem + 1) prev =
      if prev = jpegMarkerHi ∧ fifo pos = jpegMarkerLo then [fifo pos]
      else fifo pos :: jpegDrain fifo (pos + 1) rem (fifo pos) := rfl

/-- The drain loop emits at most the remaining byte budget. -/
theorem jpegDrain_length_le (fifo : Fifo) :
    ∀ rem pos prev, (jpegDrain fifo pos rem prev).length ≤ rem := by
  intro rem
  induction rem with
  | zero => intro pos prev; simp [jpegDrain_zero]
  | succ r ih =>
    intro pos prev
    rw [jpegDrain_succ]
    by_cases h : prev = jpegMarkerHi ∧ fifo pos = jpegMarkerLo
    · rw [if_pos h]; simp
    · rw [if_neg h]
      simpa using Nat.succ_le_succ (ih (pos + 1) (fifo pos))

/-- Every byte the drain loop emits is the FIFO byte at the matching
position: the output is a contiguous slice of the stream. -/
theorem jpegDrain_get (fifo : Fifo) :
    ∀ rem pos prev i, i < (jpegDrain fifo pos rem prev).length →
      (jpegDrain fifo pos rem prev).get? i = some (fifo (pos + i)) := by
  intro rem
  induction rem with
  | zero => intro pos prev i h; simp [jpegDrain_zero] at h
  | succ r ih =>
    intro pos prev i h
    rw [jpegDrain_succ] at h ⊢
    by_cases hm : prev = jpegMarkerHi ∧ fifo pos = jpegMarkerLo
    · rw [if_pos hm] at h ⊢
      have hi : i = 0 := by simpa [Nat.lt_one_iff] using h
      subst hi; simp
    · rw [if_neg hm] at h ⊢
      cases i with
      | zero => simp
      | succ j =>
        have hj : j < (jpegDrain fifo (pos + 1) r (fifo pos)).length := by
          simpa using Nat.lt_of_succ_lt_succ (by simpa using h)
        have := ih (pos + 1) (fifo pos) j hj
        have harith : pos + 1 + j = pos + (j + 1) := by omega
        rw [harith] at this
        simpa using this

/-- Whenever the stream carries a marker pair at positions
(`pos + j`, `pos + j + 1`), the drain loop starting at `pos` emits at most
`j + 2` bytes: it never reads past the first end-of-image marker. -/
theorem jpegDrain_stops_at_pair (fifo : Fifo) :
    ∀ rem pos prev j, fifo (pos + j) = jpegMarkerHi →
      fifo (pos + j + 1) = jpegMarkerLo →
      (jpegDrain fifo pos rem prev).length ≤ j + 2 := by
  intro rem
  induction rem with
  | zero => intro pos prev j _ _; simp [jpegDrain_zero]
  | succ r ih =>
    intro pos prev j h1 h2
    rw [jpegDrain_succ]
    by_cases hm : prev = jpegMarkerHi ∧ fifo pos = jpegMarkerLo
    · rw [if_pos hm]; simp
    · rw [if_neg hm]
      cases j with
      | zero =>
        have h1' : fifo pos = jpegMarkerHi := by simpa using h1
        have h2' : fifo (pos + 1) = jpegMarkerLo := by simpa using h2
        simp only [List.length_cons]
        have hinner : (jpegDrain fifo (pos + 1) r (fifo pos)).length ≤ 1 := by
          cases r with
          | zero => simp [jpegDrain_zero]
          | succ r' =>
            rw [jpegDrain_succ, if_pos ⟨h1', h2'⟩]
            simp
        omega
      | succ j' =>
        simp only [List.length_cons]
        have h1' : fifo (pos + 1 + j') = jpegMarkerHi := by
          have : pos + 1 + j' = pos + (j' + 1) := by omega
          rw [this]; exact h1
        have h2' : fifo (pos + 1 + j' + 1) = jpegMarkerLo := by
          have : pos + 1 + j' + 1 = pos + (j' + 1) + 1 := by omega
          rw [this]; exact h2
        have := ih (pos + 1) (fifo pos) j' h1' h2'
        omega

/-- The drain loop stops for one of three reasons: the byte budget is
exhausted, the last two emitted bytes completed a marker pair in the
stream, or (only possible when seeded with a matching `prev`) the very
first byte completed a pair with `prev`. -/
theorem jpegDrain_complete (fifo : Fifo) :
    ∀ rem pos prev,
      (jpegDrain fifo pos rem prev).length = rem ∨
      (∃ k, (jpegDrain fifo pos rem prev).length = k + 2 ∧
        fifo (pos + k) = jpegMarkerHi ∧ fifo (pos + k + 1) = jpegMarkerLo) ∨
      ((jpegDrain fifo pos rem prev).length = 1 ∧ prev = jpegMarkerHi ∧
        fifo pos = jpegMarkerLo) := by
  intro rem
  induction rem with
  | zero => intro pos prev; left; simp [jpegDrain_zero]
  | succ r ih =>
    intro pos prev
    rw [jpegDrain_succ]
    by_cases hm : prev = jpegMarkerHi ∧ fifo pos = jpegMarkerLo
    · rw [if_pos hm]
      right; right
      exact ⟨by simp, hm.1, hm.2⟩
    · rw [if_neg hm]
      rcases ih (pos + 1) (fifo pos) with h | ⟨k, hk, hHi, hLo⟩ | ⟨h1, hprev, hnext⟩
      · left; simp [h]
      · right; left
        refine ⟨k + 1, by simp [hk], ?_, ?_⟩
        · have : pos + (k + 1) = pos + 1 + k := by omega
          rw [this]; exact hHi
        · have : pos + (k + 1) + 1 = pos + 1 + k + 1 := by omega
          rw [this]; exact hLo
      · right; left
        refine ⟨0, by simp [h1], by simpa using hprev, by simpa using hnext⟩

/-- A length that is neither zero nor above the hardware maximum is not
degenerate. -/
theorem degenerateLength_eq_false (len : Nat) (h0 : len ≠ 0)
    (h1 : len ≤ maxFifoSize) : degenerateLength len = false := by
  simp only [degenerateLength, decide_eq_false_iff_not]
  intro h
  rcases h with h | h
  · exact h0 h
  · omega

/-- A degenerate length is zero or above the hardware maximum. -/
theorem degenerateLength_true_iff (len : Nat) :
    degenerateLength len = true ↔ len = 0 ∨ maxFifoSize < len := by
  simp [degenerateLength]

/-- Claim C1: for every compressed-mode (JPEG) capture, the frame
extractor emits at most the reported FIFO length bytes to `sendByte`
(each emitted byte being the FIFO byte at the matching position), it
stops no later than right after any (0xFF, 0xD9) pair in the stream —
hence at the earliest pair, which ends at index ≥ 1 of the emitted
stream, with no bytes emitted past the marker even when the length
register implied more remain — and it stops early only because of such a
pair ending the emitted stream. -/
theorem grabJpegFrame_spec (fifo : Fifo) (len : Nat) (hmax : len ≤ maxFifoSize) :
    (grabJpegFrame fifo len).length ≤ len ∧
    (∀ i, i < (grabJpegFrame fifo len).length →
      (grabJpegFrame fifo len).get? i = some (fifo i)) ∧
    (∀ j, fifo j = jpegMarkerHi → fifo (j + 1) = jpegMarkerLo →
      (grabJpegFrame fifo len).length ≤ j + 2) ∧
    ((grabJpegFrame fifo len).length = len ∨
      ∃ k, (grabJpegFrame fifo len).length = k + 2 ∧
        fifo k = jpegMarkerHi ∧ fifo (k + 1) = jpegMarkerLo) := by
  by_cases hdeg : degenerateLength len = true
  · have h0 : len = 0 := by
      rcases (degenerateLength_true_iff len).mp hdeg with h | h
      · exact h
      · omega
    subst h0
    refine ⟨by simp [grabJpegFrame, degenerateLength],
      by simp [grabJpegFrame, degenerateLength],
      fun j _ _ => by simp [grabJpegFrame, degenerateLength],
      Or.inl (by simp [grabJpegFrame, degenerateLength])⟩
  · have hne : degenerateLength len = false := by
      simpa using hdeg
    have hout : grabJpegFrame fifo len = jpegDrain fifo 0 len jpegSentinel := by
      simp [grabJpegFrame, hne]
    rw [hout]
    refine ⟨jpegDrain_length_le fifo len 0 jpegSentinel, ?_, ?_, ?_⟩
    · intro i hi
      simpa using jpegDrain_get fifo len 0 jpegSentinel i hi
    · intro j h1 h2
      exact jpegDrain_stops_at_pair fifo len 0 jpegSentinel j
        (by simpa using h1) (by simpa using h2)
    · rcases jpegDrain_complete fifo len 0 jpegSentinel with h | ⟨k, hk, hHi, hLo⟩ | ⟨_, hs, _⟩
      · exact Or.inl h
      · exact Or.inr ⟨k, hk, by simpa using hHi, by simpa using hLo⟩
      · exact absurd hs (by simp [jpegSentinel, jpegMarkerHi])

/-- Witness for C1 at a concrete stream and reported length. -/
theorem grabJpegFrame_spec_witness :
    (grabJpegFrame exFifo 5).length ≤ 5 :=
  (grabJpegFrame_spec exFifo 5 (by decide)).1

/-- Claim C6: the sliding window is seeded with a sentinel that cannot
match the first marker byte, marker detection fires only after at least
two bytes have been read (an early stop implies at least two emitted
bytes), and a frame whose first two bytes already form the (0xFF, 0xD9)
pair is read to exactly those two bytes — not fewer. -/
theorem jpeg_marker_window_seeding (fifo : Fifo) (len : Nat)
    (hmax : len ≤ maxFifoSize) :
    jpegSentinel ≠ jpegMarkerHi ∧
    ((grabJpegFrame fifo len).length < len → 2 ≤ (grabJpegFrame fifo len).length) ∧
    (2 ≤ len → fifo 0 = jpegMarkerHi → fifo 1 = jpegMarkerLo →
      (grabJpegFrame fifo len).length = 2 ∧
      (grabJpegFrame fifo len).get? 0 = some jpegMarkerHi ∧
      (grabJpegFrame fifo len).get? 1 = some jpegMarkerLo) := by
  refine ⟨by simp [jpegSentinel, jpegMarkerHi], ?_, ?_⟩
  · intro hlt
    by_cases hdeg : degenerateLength len = true
    · have h0 : len = 0 := by
        rcases (degenerateLength_true_iff len).mp hdeg with h | h
        · exact h
        · omega
      subst h0
      simp [grabJpegFrame, degenerateLength] at hlt
    · have hne : degenerateLength len = false := by simpa using hdeg
      have hout : grabJpegFrame fifo len = jpegDrain fifo 0 len jpegSentinel := by
        simp [grabJpegFrame, hne]
      rw [hout] at hlt ⊢
      rcases jpegDrain_complete fifo len 0 jpegSentinel with h | ⟨k, hk, _, _⟩ | ⟨_, hs, _⟩
      · omega
      · omega
      · exact absurd hs (by simp [jpegSentinel, jpegMarkerHi])
  · intro hlen h0 h1
    have hne : degenerateLength len = false :=
      degenerateLength_eq_false len (by omega) hmax
    have hout : grabJpegFrame fifo len = jpegDrain fifo 0 len jpegSentinel := by
      simp [grabJpegFrame, hne]
    have hle : (jpegDrain fifo 0 len jpegSentinel).length ≤ 2 := by
      simpa using jpegDrain_stops_at_pair fifo len 0 jpegSentinel 0
        (by simpa using h0) (by simpa using h1)
    have hge : 2 ≤ (jpegDrain fifo 0 len jpegSentinel).length := by
      rcases jpegDrain_complete fifo len 0 jpegSentinel with h | ⟨k, hk, _, _⟩ | ⟨_, hs, _⟩
      · omega
      · omega
      · exact absurd hs (by simp [jpegSentinel, jpegMarkerHi])
    have hlen2 : (jpegDrain fifo 0 len jpegSentinel).length = 2 :=
      Nat.le_antisymm hle hge
    rw [hout]
    refine ⟨hlen2, ?_, ?_⟩
    · have := jpegDrain_get fifo len 0 jpegSentinel 0 (by omega)
      simpa [h0] using this
    · have := jpegDrain_get fifo len 0 jpegSentinel 1 (by omega)
      simpa [h1] using this

/-- Example FIFO stream whose first two bytes form a spurious marker pair. -/
def exFifoSpur : Fifo := fun i => [0xFF, 0xD9, 1, 2].getD i 0

/-- Witness for C6 at a concrete stream starting with the marker pair. -/
theorem jpeg_marker_window_seeding_witness :
    (grabJpegFrame exFifoSpur 4).length = 2 :=
  ((jpeg_marker_window_seeding exFifoSpur 4 (by decide)).2.2
    (by decide) (by decide) (by decide)).1

/-- A non-degenerate raw-mode extraction reads exactly `len` bytes. -/
theorem grabQvgaFrame_length (fifo : Fifo) (len : Nat)
    (h : degenerateLength len = false) : (grabQvgaFrame fifo len).length = len := by
  simp [grabQvgaFrame, h]

/-- Claim C2: for every raw-mode configuration (scale-down exponent and
grayscale flag), a completed capture tick emits exactly pixel-count × 1
bytes when grayscale and pixel-count × 2 bytes otherwise — one `sendByte`
call per byte, no more and no less. -/
theorem qvga_frame_byte_count (sd : Nat) (gs : Bool) (i : TickInput)
    (hdone : i.fifoDone = true)
    (hpos : 0 < sensorPixelCount 320 240 sd)
    (hmax : qvgaLength (sensorPixelCount 320 240 sd) gs ≤ maxFifoSize) :
    (tick { beginQvga sd gs with phase := Phase.Capturing } i).2.emitted.length
      = sensorPixelCount 320 240 sd * (if gs then 1 else 2) := by
  have hlen0 : qvgaLength (sensorPixelCount 320 240 sd) gs ≠ 0 := by
    unfold qvgaLength
    apply Nat.mul_ne_zero
    · omega
    · cases gs <;> simp
  have hne := degenerateLength_eq_false _ hlen0 hmax
  have hkey : (tick { beginQvga sd gs with phase := Phase.Capturing } i).2.emitted
      = grabQvgaFrame i.fifo (qvgaLength (sensorPixelCount 320 240 sd) gs) := by
    simp [tick, beginQvga, hdone, frameLength]
  rw [hkey, grabQvgaFrame_length _ _ hne]
  rfl

/-- Witness for C2: scale-down 0, grayscale off, 320×240 sensor — exactly
153,600 bytes are emitted. -/
theorem qvga_frame_byte_count_witness :
    (tick { beginQvga 0 false with phase := Phase.Capturing } iDone).2.emitted.length
      = 153600 := by
  have h := qvga_frame_byte_count 0 false iDone rfl (by decide) (by decide)
  rw [h]
  decide

/-- Claim C3: while the machine is capturing, `start_capture()` is never
issued, and a start signal has no effect at all on the tick's result —
at most one capture session is active at any time. -/
theorem no_start_while_capturing (s : DriverState) (i : TickInput)
    (h : s.phase = Phase.Capturing) :
    (tick s i).2.startedCapture = false ∧
    ∀ b, tick s i = tick s { i with startReq := b } := by
  constructor
  · by_cases hd : i.fifoDone
    · simp [tick, h, hd]
    · by_cases hs : i.stopReq <;> simp [tick, h, hd, hs]
  · intro b
    simp [tick, h, frameLength]

/-- Witness for C3 at a concrete capturing state and input. -/
theorem no_start_while_capturing_witness :
    (tick sCapJpeg iNone).2.startedCapture = false :=
  (no_start_while_capturing sCapJpeg iNone rfl).1

/-- Claim C4: a stop request observed while capturing and strictly before
the completion flag is set moves the machine to `Idle` with zero bytes
emitted for that session; once the completion flag is set, draining runs
within the tick and a stop request has no effect on the tick's result. -/
theorem stop_before_done_aborts (s : DriverState) (i : TickInput)
    (h : s.phase = Phase.Capturing) :
    (i.fifoDone = false → i.stopReq = true →
      (tick s i).1.phase = Phase.Idle ∧ (tick s i).2.emitted = []) ∧
    (i.fifoDone = true → ∀ b, tick s i = tick s { i with stopReq := b }) := by
  constructor
  · intro hd hs
    simp [tick, h, hd, hs]
  · intro hd b
    simp [tick, h, hd, frameLength]

/-- Witness for C4 at a concrete capturing state with a stop request. -/
theorem stop_before_done_aborts_witness :
    (tick sCapJpeg iStop).1.phase = Phase.Idle ∧
    (tick sCapJpeg iStop).2.emitted = [] :=
  (stop_before_done_aborts sCapJpeg iStop rfl).1 rfl rfl

/-- Claim C5: when the frame length for a completed capture is degenerate
(zero, or above the hardware maximum 0x5FFFF), the extraction step
short-circuits: no bytes are emitted, no bus burst read is initiated, and
the machine returns to `Idle` with the rest of the driver state intact,
ready for the next start request. -/
theorem degenerate_length_skips_frame (s : DriverState) (i : TickInput)
    (h : s.phase = Phase.Capturing) (hd : i.fifoDone = true)
    (hdeg : degenerateLength (frameLength s i) = true) :
    (tick s i).2.emitted = [] ∧
    (tick s i).2.burstRead = false ∧
    (tick s i).1 = { s with phase := Phase.Idle } := by
  refine ⟨?_, ?_, ?_⟩
  · by_cases hj : s.usingJpeg <;>
      simp [tick, h, hd, hj, grabJpegFrame, grabQvgaFrame, hdeg]
  · simp [tick, h, hd, hdeg]
  · simp [tick, h, hd]

/-- Witness for C5: reported compressed length 0 on a completed capture. -/
theorem degenerate_length_skips_frame_witness :
    (tick sCapJpeg iDoneZero).2.emitted = [] ∧
    (tick sCapJpeg iDoneZero).2.burstRead = false :=
  ⟨(degenerate_length_skips_frame sCapJpeg iDoneZero rfl rfl (by decide)).1,
   (degenerate_length_skips_frame sCapJpeg iDoneZero rfl rfl (by decide)).2.1⟩

/-- Claim C7: `read_fifo_length` composes three 8-bit register reads into
`low + 256·mid + 65536·high`, and its result is always strictly below
2^24. -/
theorem read_fifo_length_spec (low mid high : Nat)
    (h1 : low < 256) (h2 : mid < 256) (h3 : high < 256) :
    read_fifo_length low mid high = low + 256 * mid + 65536 * high ∧
    read_fifo_length low mid high < 2 ^ 24 := by
  constructor
  · simp [read_fifo_length, Nat.mod_eq_of_lt h1, Nat.mod_eq_of_lt h2,
      Nat.mod_eq_of_lt h3]
  · have hpow : (2 : Nat) ^ 24 = 16777216 := by norm_num
    simp only [read_fifo_length, hpow]
    omega

/-- Witness for C7 at concrete register values. -/
theorem read_fifo_length_spec_witness :
    read_fifo_length 1 2 3 = 1 + 256 * 2 + 65536 * 3 ∧
    read_fifo_length 1 2 3 < 2 ^ 24 :=
  read_fifo_length_spec 1 2 3 (by decide) (by decide) (by decide)

/-- Claim C8: two consecutive ticks in `Idle` with no start signal leave
the entire driver state unchanged, emit no bytes, issue no
`start_capture()`, and initiate no bus burst read. -/
theorem idle_ticks_are_noop (s : DriverState) (i1 i2 : TickInput)
    (h : s.phase = Phase.Idle) (h1 : i1.startReq = false)
    (h2 : i2.startReq = false) :
    tick s i1 = (s, ⟨[], false, false⟩) ∧
    tick (tick s i1).1 i2 = (s, ⟨[], false, false⟩) := by
  have e1 : tick s i1 = (s, ⟨[], false, false⟩) := by
    simp [tick, h, h1]
  refine ⟨e1, ?_⟩
  rw [e1]
  simp [tick, h, h2]

/-- Witness for C8 at a concrete idle state and signal-free inputs. -/
theorem idle_ticks_are_noop_witness :
    tick sIdleJpeg iNone = (sIdleJpeg, ⟨[], false, false⟩) :=
  (idle_ticks_are_noop sIdleJpeg iNone iNone rfl rfl rfl).1

/-- Claim C9: `Serial_ArduCAM_Mini_2MP::gotStartRequest` returns true iff
a byte is available and the byte read is nonzero; whenever a byte is
available it is consumed regardless of its value (an available zero byte
is silently discarded), and with nothing available it returns false with
the port untouched. -/
theorem gotStartRequest_spec (buf : List Nat) :
    ((gotStartRequest buf).1 = true ↔ ∃ b rest, buf = b :: rest ∧ b ≠ 0) ∧
    (gotStartRequest buf).2 = buf.tail ∧
    (buf = [] → gotStartRequest buf = (false, buf)) := by
  cases buf with
  | nil =>
    refine ⟨?_, ?_, fun _ => ?_⟩ <;>
      simp [gotStartRequest, serialAvailable]
  | cons b rest =>
    refine ⟨?_, ?_, fun hnil => by simp at hnil⟩
    · simp [gotStartRequest, serialAvailable, serialReadVal, serialReadRest]
    · simp [gotStartRequest, serialAvailable, serialReadRest]

/-- Witness for C9: an available nonzero byte signals start. -/
theorem gotStartRequest_spec_witness : (gotStartRequest [7, 3]).1 = true :=
  (gotStartRequest_spec [7, 3]).1.mpr ⟨7, [3], rfl, by decide⟩

/-- Claim C10: `Serial_ArduCAM_Mini_2MP::gotStopRequest` returns true iff
a byte is available and the byte read is zero, consuming the byte
regardless of its value; for any single available byte the start and stop
predicates can never both hold. -/
theorem gotStopRequest_spec (buf : List Nat) :
    ((gotStopRequest buf).1 = true ↔ ∃ rest, buf = 0 :: rest) ∧
    (gotStopRequest buf).2 = buf.tail ∧
    (buf = [] → gotStopRequest buf = (false, buf)) ∧
    (∀ b rest, buf = b :: rest →
      ¬((gotStartRequest buf).1 = true ∧ (gotStopRequest buf).1 = true)) := by
  cases buf with
  | nil =>
    refine ⟨?_, ?_, fun _ => ?_, fun b rest hbr => by simp at hbr⟩ <;>
      simp [gotStopRequest, serialAvailable]
  | cons b rest =>
    refine ⟨?_, ?_, fun hnil => by simp at hnil, ?_⟩
    · simp [gotStopRequest, serialAvailable, serialReadVal, serialReadRest]
    · simp [gotStopRequest, serialAvailable, serialReadRest]
    · intro b' rest' _ hboth
      have h1 := hboth.1
      have h2 := hboth.2
      simp [gotStartRequest, gotStopRequest, serialAvailable,
        serialReadVal, serialReadRest] at h1 h2
      exact h1 h2

/-- Witness for C10: an available zero byte signals stop. -/
theorem gotStopRequest_spec_witness : (gotStopRequest [0, 3]).1 = true :=
  (gotStopRequest_spec [0, 3]).1.mpr ⟨[3], rfl⟩
